import Mathlib

/-!
Shallow embedding of the embedding-compiler core of the repository
(`src/macros/src/shared.rs`, shared between the `inline-python` and
`ct-python` proc macros), together with theorems checking the
natural-language specification against it.

Conventions of the embedding:
* `proc_macro` spans are modelled as a file name plus start/end
  line-column pairs; `span.line()` / `span.column()` in the Rust source
  are the start line / start column.
* Rust `while` / `for` push loops are modelled by the counted repetition
  `push_repeat`, which pushes one character at a time exactly as the
  loops do.
* The mutable `String` output and `Location` cursor are threaded as
  explicit state; `Result<_, TokenStream>` becomes `Except`.  The
  `compile_error!` token stream produced on failure is modelled by the
  `Diagnostic` structure recording its span anchoring and message.
* `unreachable!()` panics are modelled by the distinguished error value
  `EmitError.unreachableCase`.
* `BTreeMap<String, Ident>` is modelled as a strictly key-sorted
  association list; `entry(k).or_insert(v)` is `entry_or_insert`.
-/

namespace InlinePython

/-- A line/column position, as exposed by `proc_macro::Span::start()/end()`. -/
structure LineColumn where
  line : Nat
  column : Nat
deriving DecidableEq, Repr

/-- A source span: file plus start and end positions. -/
structure Span where
  file : String
  startPos : LineColumn
  endPos : LineColumn
deriving DecidableEq, Repr

/-- `proc_macro::Ident`: identifier text together with its span. -/
structure Ident where
  text : String
  span : Span
deriving DecidableEq, Repr

/-- `proc_macro::Delimiter`. -/
inductive Delimiter where
  | parenthesis
  | brace
  | bracket
  | none
deriving DecidableEq, Repr

/-- `proc_macro::Spacing`. -/
inductive Spacing where
  | alone
  | joint
deriving DecidableEq, Repr

/-- `proc_macro::TokenTree`: a group with open/close delimiter spans and a
child stream, a punctuation character with spacing, an identifier, or a
literal with its verbatim text (`Literal::to_string`). -/
inductive TokenTree where
  | group (delim : Delimiter) (openSpan closeSpan : Span) (stream : List TokenTree)
  | punctTok (ch : Char) (spacing : Spacing) (span : Span)
  | identTok (x : Ident)
  | litTok (text : String) (span : Span)

/-- `TokenTree::span()`: a group's span runs from its open delimiter's start
to its close delimiter's end; leaves carry their own span. -/
def TokenTree.span : TokenTree → Span
  | .group _ os cs _ => { file := os.file, startPos := os.startPos, endPos := cs.endPos }
  | .punctTok _ _ s => s
  | .identTok x => x.span
  | .litTok _ s => s

/-- The observable content of the `compile_error!` token stream built by
`compile_error` in `shared.rs`: optional (start, end) anchoring spans and
the message (prefixed with `python: `). -/
structure Diagnostic where
  spans : Option (Span × Span)
  message : String
deriving DecidableEq, Repr

/-- `compile_error` from `shared.rs`: prefixes the message and records the
anchoring spans. -/
def compile_error (spans : Option (Span × Span)) (error : String) : Diagnostic :=
  { spans := spans, message := "python: " ++ error }

/-- Failure of the reconstruction pass: either a produced `compile_error!`
diagnostic, or a Rust `unreachable!()` panic. -/
inductive EmitError where
  | diag (d : Diagnostic)
  | unreachableCase
deriving DecidableEq, Repr

/-- The `Location` cursor of `python_from_macro`. -/
structure Location where
  first_indent : Option Nat
  line : Nat
  column : Nat
deriving DecidableEq, Repr

instance instDecEqExcept {ε α : Type} [DecidableEq ε] [DecidableEq α] :
    DecidableEq (Except ε α) := fun a b =>
  match a, b with
  | .error x, .error y =>
      if h : x = y then isTrue (by rw [h]) else isFalse (by intro hh; cases hh; exact h rfl)
  | .ok x, .ok y =>
      if h : x = y then isTrue (by rw [h]) else isFalse (by intro hh; cases hh; exact h rfl)
  | .error _, .ok _ => isFalse (by intro h; cases h)
  | .ok _, .error _ => isFalse (by intro h; cases h)

/-- A `while`/`for` loop pushing `n` copies of character `c`. -/
def push_repeat (python : String) (n : Nat) (c : Char) : String :=
  match n with
  | 0 => python
  | n + 1 => push_repeat (python.push c) n c

/-- Rust's `usize::checked_sub`. -/
def checked_sub (a b : Nat) : Option Nat :=
  if b ≤ a then some (a - b) else Option.none

/-- `add_whitespace` from `shared.rs`: advance the cursor to the start of
`span`, pushing newlines and indentation/padding spaces; establishes
`first_indent` on the first line advance and fails with an
`invalid indent` diagnostic anchored at `span` when the new line is less
indented than `first_indent`. -/
def add_whitespace (python : String) (loc : Location) (span : Span) :
    Except EmitError (String × Location) :=
  let line := span.startPos.line
  let column := span.startPos.column
  if line > loc.line then
    let python := push_repeat python (line - loc.line) '\n'
    let first_indent := loc.first_indent.getD column
    match checked_sub column first_indent with
    | Option.none =>
        .error (.diag (compile_error (some (span, span)) "invalid indent"))
    | some indent =>
        .ok (push_repeat python indent ' ',
             { first_indent := some first_indent, line := line, column := column })
  else if line = loc.line then
    if column > loc.column then
      .ok (push_repeat python (column - loc.column) ' ', { loc with column := column })
    else
      .ok (python, loc)
  else
    .ok (python, loc)

/-- `for_all_spans` from `shared.rs`, with the visit order of the callback
reified as a list: a group contributes its open-delimiter span, then the
spans of its children (recursively), then its close-delimiter span; every
other token contributes its own span. -/
def for_all_spans : List TokenTree → List Span
  | [] => []
  | .group _ os cs stream :: rest => os :: (for_all_spans stream ++ cs :: for_all_spans rest)
  | t :: rest => t.span :: for_all_spans rest

/-- One step of the `spans_for_line` callback:
`if span.start().line() == line { spans.get_or_insert((span, span)).1 = span }`. -/
def update_spans (line : Nat) (spans : Option (Span × Span)) (span : Span) :
    Option (Span × Span) :=
  if span.startPos.line = line then
    match spans with
    | Option.none => some (span, span)
    | some (first, _) => some (first, span)
  else spans

/-- `spans_for_line` from `shared.rs`: the first and last span whose start
line equals `line`, in `for_all_spans` visit order. -/
def spans_for_line (input : List TokenTree) (line : Nat) : Option (Span × Span) :=
  (for_all_spans input).foldl (update_spans line) Option.none

/-- The capture-marker character `'\''` (written by code point to keep the
source free of quote-escape characters). -/
def single_quote : Char := Char.ofNat 39

/-- The vars map `BTreeMap<String, Ident>`, modelled as a strictly
key-sorted association list (which is exactly a B-tree map's contents in
its iteration order). -/
abbrev VarMap : Type := List (String × Ident)

/-- `variables.entry(k).or_insert(v)` on the sorted association list:
inserts `(k, v)` at its sorted position when `k` is absent, and leaves the
existing entry untouched when `k` is present. -/
def entry_or_insert : VarMap → String → Ident → VarMap
  | [], k, v => [(k, v)]
  | (k1, v1) :: rest, k, v =>
    if k < k1 then (k, v) :: (k1, v1) :: rest
    else if k = k1 then (k1, v1) :: rest
    else (k1, v1) :: entry_or_insert rest k v

/-- The delimiter strings of a group (`Delimiter::None` is invisible). -/
def delim_strings : Delimiter → String × String
  | .parenthesis => ("(", ")")
  | .brace => ("\x7b", "\x7d")
  | .bracket => ("[", "]")
  | .none => ("", "")

/-- The `TokenTree::Literal` arm of `add_tokens`: with `s = x.to_string()`,
drop one trailing space when `s` starts with a double quote, the output so
far ends with a space, and the character before that space is ASCII
alphabetic (`f ".."` becomes `f".."`); then append `s`. -/
def literal_emit (python : String) (s : String) : String :=
  if s.data.head? = some '"' ∧ python.data.getLast? = some ' ' ∧
      (match python.data.dropLast.getLast? with
        | some c => c.isAlpha
        | Option.none => false) = true then
    { data := python.data.dropLast ++ s.data }
  else python ++ s

/-- `add_tokens` from `python_from_macro` in `shared.rs`: walk the token
stream, reproducing whitespace with `add_whitespace`, rewriting capture
markers (`'x` → `_RUST_x`, registered in `variables`) and `##` → `//`,
and emitting group delimiters, identifiers and literals. -/
def add_tokens (python : String) (loc : Location) (input : List TokenTree)
    (vars : Option VarMap) :
    Except EmitError (String × Location × Option VarMap) :=
  match input with
  | [] => .ok (python, loc, vars)
  | token :: tokens =>
    match add_whitespace python loc token.span with
    | .error e => .error e
    | .ok (python1, loc1) =>
      match token with
      | .group delim os cs stream =>
        let se := delim_strings delim
        match add_whitespace python1 loc1 os with
        | .error e => .error e
        | .ok (python2, loc2) =>
          match add_tokens (python2 ++ se.1)
              { loc2 with column := loc2.column + se.1.length } stream vars with
          | .error e => .error e
          | .ok (python3, loc3, variables3) =>
            match add_whitespace python3 loc3 cs with
            | .error e => .error e
            | .ok (python4, loc4) =>
              add_tokens (python4 ++ se.2)
                { loc4 with column := loc4.column + se.2.length } tokens variables3
      | .punctTok ch spacing _ =>
        if vars.isSome ∧ ch = single_quote ∧ spacing = Spacing.joint then
          match tokens with
          | .identTok name :: rest =>
            let name_str := "_RUST_" ++ name.text
            add_tokens (python1 ++ name_str)
              { loc1 with column := loc1.column + (name_str.length - 6 + 1) } rest
              (vars.map fun m => entry_or_insert m name_str name)
          | _ => .error .unreachableCase
        else if ch = '#' ∧ spacing = Spacing.joint then
          match tokens with
          | .punctTok p _ _ :: rest =>
            if p = '#' then
              add_tokens (python1 ++ "//") { loc1 with column := loc1.column + 2 } rest vars
            else
              add_tokens ((python1.push ch).push p)
                { loc1 with column := loc1.column + 2 } rest vars
          | _ => .error .unreachableCase
        else
          add_tokens (python1.push ch) { loc1 with column := loc1.column + 1 } tokens vars
      | .identTok x =>
        add_tokens (python1 ++ x.text)
          { loc1 with line := x.span.endPos.line, column := x.span.endPos.column }
          tokens vars
      | .litTok s sp =>
        add_tokens (literal_emit python1 s)
          { loc1 with line := sp.endPos.line, column := sp.endPos.column }
          tokens vars
termination_by sizeOf input

/-- `python_from_macro` from `shared.rs`: reconstruct the Python source
from the token stream, starting at line 1, column 0, with no established
indent baseline; returns the built string and the final vars map. -/
def python_from_macro (input : List TokenTree) (vars : Option VarMap) :
    Except EmitError (String × Option VarMap) :=
  match add_tokens "" { first_indent := Option.none, line := 1, column := 0 } input vars with
  | .error e => .error e
  | .ok (python, _, vars) => .ok (python, vars)

/-- The test `span.start().line() == line` used by `spans_for_line`. -/
def span_matches (line : Nat) (s : Span) : Bool := s.startPos.line == line

/-- The last element of `a :: l`. -/
def last_from (a : Span) : List Span → Span
  | [] => a
  | b :: t => last_from b t

/-- The Capture Registry invariant: keys strictly increasing in list
(= iteration) order, hence pairwise distinct. -/
def keys_sorted (m : VarMap) : Prop := List.Pairwise (fun a b => a.1 < b.1) m

/-- `sorted_opt`: the optional registry, when present, is key-sorted. -/
def sorted_opt : Option VarMap → Prop
  | Option.none => True
  | some m => keys_sorted m

/-- One traceback frame as read by `get_traceback_info` in `shared.rs`:
`tb_frame.f_code.co_filename` and `tb_frame.f_lineno`. -/
structure TracebackFrame where
  file : String
  line : Nat
deriving DecidableEq, Repr

/-- The observable shape of a `PyErr` as consumed by
`python_error_to_compile_error`: whether the exception value is `None`,
whether it matches `SyntaxError`, the `(lineno, msg)` attributes when
readable, the traceback as its non-empty chain of frames (the head is the
frame `tb.tb_frame` of `error.traceback(py)`, the only one the code
reads), the result of `value.str()` when it succeeds, and the type name. -/
structure PyError where
  valueIsNone : Bool
  isSyntaxError : Bool
  synInfo : Option (Nat × String)
  traceback : Option (TracebackFrame × List TracebackFrame)
  strValue : Option String
  typeName : String
deriving DecidableEq, Repr

/-- `get_traceback_info` from `shared.rs`: file and line of the head frame
of the traceback; the chain is never walked further. -/
def get_traceback_info (tb : TracebackFrame × List TracebackFrame) : String × Nat :=
  (tb.1.file, tb.1.line)

/-- All frames of a traceback, head first. -/
def all_frames (tb : TracebackFrame × List TracebackFrame) : List TracebackFrame :=
  tb.1 :: tb.2

/-- `python_error_to_compile_error` from `shared.rs`: `None`-valued errors
report the type name unanchored; a `SyntaxError` with readable info and a
span on its line is anchored there; otherwise, a traceback whose head
frame's file equals `call_site_file` (`Span::call_site().file()`, the
filename the source was compiled under), with a span found for that
frame's line and a printable value, is anchored at that span pair;
otherwise the diagnostic is unanchored (printable value, else type name). -/
def python_error_to_compile_error (e : PyError) (tokens : List TokenTree)
    (call_site_file : String) : Diagnostic :=
  if e.valueIsNone then
    compile_error Option.none e.typeName
  else
    match (if e.isSyntaxError then
        e.synInfo.bind fun li =>
          (spans_for_line tokens li.1).map fun sp => (sp, li.2)
      else Option.none) with
    | some (sp, msg) => compile_error (some sp) msg
    | Option.none =>
      match (e.traceback.bind fun tb =>
          if (get_traceback_info tb).1 = call_site_file then
            (spans_for_line tokens (get_traceback_info tb).2).bind fun sp =>
              e.strValue.map fun msg => (sp, msg)
          else Option.none) with
      | some (sp, msg) => compile_error (some sp) msg
      | Option.none =>
        match e.strValue with
        | some msg => compile_error Option.none msg
        | Option.none => compile_error Option.none e.typeName

/-- The text a leaf token contributes to the output. -/
def leaf_text : TokenTree → String
  | .punctTok ch _ _ => String.singleton ch
  | .identTok x => x.text
  | .litTok s _ => s
  | .group _ _ _ _ => ""

/-- Each token's text preceded by one space. -/
def sep_concat : List TokenTree → String
  | [] => ""
  | t :: rest => " " ++ leaf_text t ++ sep_concat rest

/-- The token texts concatenated, separated by single spaces. -/
def concat_texts : List TokenTree → String
  | [] => ""
  | t :: rest => leaf_text t ++ sep_concat rest

/-- `uniform_after prev c ts`: the cursor sits on line 1 at column `c`,
`prev` is the last character of the output built so far, and every token
of `ts` is a leaf on line 1 starting exactly one column after the
previous token ends (puncts with `Spacing::Alone`).  The condition on
literals excludes the prefixed-string space-drop of `literal_emit`. -/
def uniform_after : Option Char → Nat → List TokenTree → Prop
  | _, _, [] => True
  | _, c, .punctTok ch sp span :: rest =>
      sp = Spacing.alone ∧ span.startPos = ⟨1, c + 1⟩ ∧
      uniform_after (some ch) (c + 2) rest
  | _, c, .identTok x :: rest =>
      x.text ≠ "" ∧ x.span.startPos = ⟨1, c + 1⟩ ∧
      x.span.endPos = ⟨1, c + 1 + x.text.length⟩ ∧
      uniform_after x.text.data.getLast? (c + 1 + x.text.length) rest
  | prev, c, .litTok s span :: rest =>
      s ≠ "" ∧
      ¬(s.data.head? = some '"' ∧ ∃ ch, prev = some ch ∧ ch.isAlpha = true) ∧
      span.startPos = ⟨1, c + 1⟩ ∧ span.endPos = ⟨1, c + 1 + s.length⟩ ∧
      uniform_after s.data.getLast? (c + 1 + s.length) rest
  | _, _, .group _ _ _ _ :: _ => False

/-- Uniform one-line single-space-separated leaf tokens, the first one
starting at line 1 column 0 (the cursor's origin). -/
def uniform_from_start : List TokenTree → Prop
  | [] => True
  | .punctTok ch sp span :: rest =>
      sp = Spacing.alone ∧ span.startPos = ⟨1, 0⟩ ∧
      uniform_after (some ch) 1 rest
  | .identTok x :: rest =>
      x.text ≠ "" ∧ x.span.startPos = ⟨1, 0⟩ ∧
      x.span.endPos = ⟨1, x.text.length⟩ ∧
      uniform_after x.text.data.getLast? x.text.length rest
  | .litTok s span :: rest =>
      s ≠ "" ∧ span.startPos = ⟨1, 0⟩ ∧ span.endPos = ⟨1, s.length⟩ ∧
      uniform_after s.data.getLast? s.length rest
  | .group _ _ _ _ :: _ => False

lemma foldl_update_spans_some (line : Nat) (l : List Span) :
    ∀ f a, l.foldl (update_spans line) (some (f, a)) =
      some (f, last_from a (l.filter (span_matches line))) := by
  induction l with
  | nil => intro f a; simp [last_from]
  | cons s t ih =>
    intro f a
    by_cases h : s.startPos.line = line
    · simp [List.foldl_cons, update_spans, h, span_matches, List.filter_cons, ih, last_from]
    · simp [List.foldl_cons, update_spans, h, span_matches, List.filter_cons, ih, last_from]

lemma foldl_update_spans_none (line : Nat) (l : List Span) :
    l.foldl (update_spans line) Option.none =
      match l.filter (span_matches line) with
      | [] => Option.none
      | f :: rest => some (f, last_from f rest) := by
  induction l with
  | nil => simp
  | cons s t ih =>
    by_cases h : s.startPos.line = line
    · simp [List.foldl_cons, update_spans, h, span_matches, List.filter_cons,
        foldl_update_spans_some]
    · simpa [List.foldl_cons, update_spans, h, span_matches, List.filter_cons] using ih

lemma spans_for_line_eq (input : List TokenTree) (line : Nat) :
    spans_for_line input line =
      match (for_all_spans input).filter (span_matches line) with
      | [] => Option.none
      | f :: rest => some (f, last_from f rest) :=
  foldl_update_spans_none line (for_all_spans input)

lemma mem_entry_or_insert (k : String) (v : Ident) :
    ∀ (m : VarMap) b, b ∈ entry_or_insert m k v → b = (k, v) ∨ b ∈ m := by
  intro m
  induction m with
  | nil => intro b hb; simp [entry_or_insert] at hb; simp [hb]
  | cons a rest ih =>
    intro b hb
    by_cases h1 : k < a.1
    · simp only [entry_or_insert, if_pos h1] at hb
      rcases List.mem_cons.mp hb with hb | hb
      · exact Or.inl hb
      · exact Or.inr hb
    · by_cases h2 : k = a.1
      · simp only [entry_or_insert, if_neg h1, if_pos h2] at hb
        exact Or.inr hb
      · simp only [entry_or_insert, if_neg h1, if_neg h2, List.mem_cons] at hb
        rcases hb with hb | hb
        · exact Or.inr (by simp [hb])
        · rcases ih b hb with hc | hc
          · exact Or.inl hc
          · exact Or.inr (List.mem_cons_of_mem _ hc)

lemma entry_or_insert_sorted (k : String) (v : Ident) :
    ∀ (m : VarMap), keys_sorted m → keys_sorted (entry_or_insert m k v) := by
  intro m
  induction m with
  | nil => intro _; simp [entry_or_insert, keys_sorted]
  | cons a rest ih =>
    intro h
    obtain ⟨ha, hrest⟩ := List.pairwise_cons.mp h
    by_cases h1 : k < a.1
    · simp only [entry_or_insert, if_pos h1]
      refine List.pairwise_cons.mpr ⟨?_, h⟩
      intro b hb
      rcases List.mem_cons.mp hb with rfl | hb
      · exact h1
      · exact lt_trans h1 (ha b hb)
    · by_cases h2 : k = a.1
      · simpa only [entry_or_insert, if_neg h1, if_pos h2] using h
      · have hak : a.1 < k := by
          rcases lt_trichotomy k a.1 with hc | hc | hc
          · exact absurd hc h1
          · exact absurd hc h2
          · exact hc
        simp only [entry_or_insert, if_neg h1, if_neg h2]
        refine List.pairwise_cons.mpr ⟨?_, ih hrest⟩
        intro b hb
        rcases mem_entry_or_insert k v rest b hb with rfl | hb
        · exact hak
        · exact ha b hb

lemma entry_or_insert_existing (k : String) (v : Ident) :
    ∀ (m : VarMap) v0, keys_sorted m → (k, v0) ∈ m → entry_or_insert m k v = m := by
  intro m
  induction m with
  | nil => intro v0 _ hm; cases hm
  | cons a rest ih =>
    intro v0 h hm
    obtain ⟨ha, hrest⟩ := List.pairwise_cons.mp h
    rcases List.mem_cons.mp hm with hb | hb
    · obtain ⟨a1, a2⟩ := a
      cases hb
      simp [entry_or_insert]
    · have hak : a.1 < k := ha _ hb
      have h1 : ¬k < a.1 := not_lt_of_gt hak
      have h2 : ¬k = a.1 := ne_of_gt hak
      simp [entry_or_insert, h1, h2, ih v0 hrest hb]

lemma sorted_opt_map_entry (vars : Option VarMap) (k : String) (v : Ident)
    (h : sorted_opt vars) :
    sorted_opt (vars.map fun m => entry_or_insert m k v) := by
  cases vars with
  | none => trivial
  | some m => exact entry_or_insert_sorted k v m h

lemma add_tokens_sorted (python : String) (loc : Location) (input : List TokenTree)
    (vars : Option VarMap) :
    sorted_opt vars → ∀ p l vm, add_tokens python loc input vars = .ok (p, l, vm) →
      sorted_opt vm := by
  induction python, loc, input, vars using add_tokens.induct with
  | case1 python loc vars =>
    intro hs p l vm heq
    simp only [add_tokens] at heq
    cases heq
    exact hs
  | case2 python loc vars token tokens e hws =>
    intro hs p l vm heq
    simp only [add_tokens, hws] at heq
    cases heq
  | case3 python loc vars tokens python4 loc4 delim os cs stream e hos hws =>
    intro hs p l vm heq
    simp only [add_tokens, hws, hos] at heq
    cases heq
  | case4 python loc vars tokens python4 loc4 delim os cs stream se python41 loc41 hos e
      hstreamerr hws ih =>
    intro hs p l vm heq
    simp only [add_tokens, hws, hos, hstreamerr] at heq
    cases heq
  | case5 python loc vars tokens python4 loc4 delim os cs stream se python41 loc41 hos
      python3 loc3 variables3 hstream e hcserr hws ih =>
    intro hs p l vm heq
    simp only [add_tokens, hws, hos, hstream, hcserr] at heq
    cases heq
  | case6 python loc vars tokens python4 loc4 delim os cs stream se python41 loc41 hos
      python3 loc3 variables3 hstream python42 loc42 hcs hws ih1 ih2 =>
    intro hs p l vm heq
    simp only [add_tokens, hws, hos, hstream, hcs] at heq
    exact ih2 (ih1 hs python3 loc3 variables3 hstream) p l vm heq
  | case7 python loc vars python4 loc4 ch spacing s hcond name rest name_str hws ih =>
    intro hs p l vm heq
    simp only [add_tokens, hws] at heq
    rw [if_pos hcond] at heq
    exact ih (sorted_opt_map_entry vars _ name hs) p l vm heq
  | case8 python loc vars tokens python4 loc4 ch spacing s hcond hnotident hws =>
    intro hs p l vm heq
    simp only [add_tokens, hws] at heq
    rw [if_pos hcond] at heq
    cases heq
  | case9 python loc vars python4 loc4 ch spacing s hncond hhash spacing1 span rest hws ih =>
    intro hs p l vm heq
    simp only [add_tokens, hws] at heq
    rw [if_neg hncond, if_pos hhash] at heq
    exact ih hs p l vm heq
  | case10 python loc vars python4 loc4 ch spacing s hncond hhash p2 spacing1 span rest
      hp hws ih =>
    intro hs p l vm heq
    simp only [add_tokens, hws] at heq
    rw [if_neg hncond, if_pos hhash] at heq
    rw [if_neg hp] at heq
    exact ih hs p l vm heq
  | case11 python loc vars tokens python4 loc4 ch spacing s hncond hhash hnotpunct hws =>
    intro hs p l vm heq
    simp only [add_tokens, hws] at heq
    rw [if_neg hncond, if_pos hhash] at heq
    cases heq
  | case12 python loc vars tokens python4 loc4 ch spacing s hncond hnhash hws ih =>
    intro hs p l vm heq
    simp only [add_tokens, hws] at heq
    rw [if_neg hncond, if_neg hnhash] at heq
    exact ih hs p l vm heq
  | case13 python loc vars tokens python4 loc4 x hws ih =>
    intro hs p l vm heq
    simp only [add_tokens, hws] at heq
    exact ih hs p l vm heq
  | case14 python loc vars tokens python4 loc4 text s hws ih =>
    intro hs p l vm heq
    simp only [add_tokens, hws] at heq
    exact ih hs p l vm heq

lemma data_ne_nil_of_ne_empty (s : String) (h : s ≠ "") : s.data ≠ [] := by
  intro hd
  apply h
  ext1
  simp [hd]

lemma append_data_getLast (A B : String) (h : B.data ≠ []) :
    (A ++ B).data.getLast? = B.data.getLast? := by
  rw [String.data_append, List.getLast?_append]
  rcases hB : B.data.getLast? with _ | b
  · exact absurd (List.getLast?_eq_none_iff.mp hB) h
  · rfl

lemma push_data_getLast (P : String) (c : Char) :
    (P.push c).data.getLast? = some c := by
  rw [String.data_push]
  exact List.getLast?_concat _

lemma add_whitespace_next_column (P : String) (fi : Option Nat) (c : Nat) (span : Span)
    (h : span.startPos = ⟨1, c + 1⟩) :
    add_whitespace P { first_indent := fi, line := 1, column := c } span =
      .ok (P.push ' ', { first_indent := fi, line := 1, column := c + 1 }) := by
  have h1 : c + 1 - c = 1 := by omega
  simp [add_whitespace, h, h1, push_repeat]

lemma literal_emit_no_drop (P : String) (s : String) (prev : Option Char)
    (hlast : P.data.getLast? = prev)
    (hnodrop : ¬(s.data.head? = some '"' ∧ ∃ ch, prev = some ch ∧ ch.isAlpha = true)) :
    literal_emit (P.push ' ') s = (P.push ' ') ++ s := by
  rw [literal_emit, if_neg]
  intro hcond
  obtain ⟨hh, _, hm⟩ := hcond
  apply hnodrop
  refine ⟨hh, ?_⟩
  rw [String.data_push, List.dropLast_concat, hlast] at hm
  rcases prev with _ | ch0
  · cases hm
  · exact ⟨ch0, rfl, hm⟩

lemma add_tokens_uniform_after :
    ∀ (ts : List TokenTree) (prev : Option Char) (c : Nat) (P : String)
      (fi : Option Nat) (vars : Option VarMap),
      uniform_after prev c ts → P.data.getLast? = prev →
      add_tokens P { first_indent := fi, line := 1, column := c } ts vars =
        .ok (P ++ sep_concat ts,
             { first_indent := fi, line := 1, column := c + (sep_concat ts).length },
             vars) := by
  intro ts
  induction ts with
  | nil =>
    intro prev c P fi vars hu hlast
    simp [add_tokens, sep_concat, String.append_empty]
  | cons t rest ih =>
    intro prev c P fi vars hu hlast
    match t with
    | .punctTok ch sp span =>
      obtain ⟨hsp, hstart, hrest⟩ := hu
      subst hsp
      have hws := add_whitespace_next_column P fi c span hstart
      simp only [add_tokens, TokenTree.span, hws]
      rw [if_neg (by simp), if_neg (by simp)]
      have hlast2 : ((P.push ' ').push ch).data.getLast? = some ch := push_data_getLast _ _
      rw [ih (some ch) (c + 2) ((P.push ' ').push ch) fi vars hrest hlast2]
      have hstr : (P.push ' ').push ch ++ sep_concat rest =
          P ++ sep_concat (.punctTok ch .alone span :: rest) := by
        ext1
        simp [String.data_append, String.data_push, sep_concat, leaf_text, String.singleton]
      have hlen : c + 2 + (sep_concat rest).length =
          c + (sep_concat (.punctTok ch .alone span :: rest)).length := by
        have h1 : (" " : String).length = 1 := rfl
        simp only [sep_concat, leaf_text, String.length_append, String.length_singleton]
        omega
      rw [hstr, hlen]
    | .identTok x =>
      obtain ⟨htext, hstart, hend, hrest⟩ := hu
      have hws := add_whitespace_next_column P fi c x.span hstart
      simp only [add_tokens, TokenTree.span, hws, hend]
      have hlast2 : ((P.push ' ') ++ x.text).data.getLast? = x.text.data.getLast? :=
        append_data_getLast _ _ (data_ne_nil_of_ne_empty _ htext)
      rw [ih x.text.data.getLast? (c + 1 + x.text.length) ((P.push ' ') ++ x.text) fi vars
        hrest hlast2]
      have hstr : (P.push ' ') ++ x.text ++ sep_concat rest =
          P ++ sep_concat (.identTok x :: rest) := by
        ext1
        simp [String.data_append, String.data_push, sep_concat, leaf_text]
      have hlen : c + 1 + x.text.length + (sep_concat rest).length =
          c + (sep_concat (.identTok x :: rest)).length := by
        have h1 : (" " : String).length = 1 := rfl
        simp only [sep_concat, leaf_text, String.length_append]
        omega
      rw [hstr, hlen]
    | .litTok s span =>
      obtain ⟨htext, hnodrop, hstart, hend, hrest⟩ := hu
      have hws := add_whitespace_next_column P fi c span hstart
      simp only [add_tokens, TokenTree.span, hws, hend]
      rw [literal_emit_no_drop P s prev hlast hnodrop]
      have hlast2 : ((P.push ' ') ++ s).data.getLast? = s.data.getLast? :=
        append_data_getLast _ _ (data_ne_nil_of_ne_empty _ htext)
      rw [ih s.data.getLast? (c + 1 + s.length) ((P.push ' ') ++ s) fi vars hrest hlast2]
      have hstr : (P.push ' ') ++ s ++ sep_concat rest =
          P ++ sep_concat (.litTok s span :: rest) := by
        ext1
        simp [String.data_append, String.data_push, sep_concat, leaf_text]
      have hlen : c + 1 + s.length + (sep_concat rest).length =
          c + (sep_concat (.litTok s span :: rest)).length := by
        have h1 : (" " : String).length = 1 := rfl
        simp only [sep_concat, leaf_text, String.length_append]
        omega
      rw [hstr, hlen]
    | .group d os cs stream => exact absurd hu (by simp [uniform_after])

lemma add_tokens_nil (python : String) (loc : Location) (vars : Option VarMap) :
    add_tokens python loc [] vars = .ok (python, loc, vars) := by
  simp only [add_tokens]

lemma ident_step (x : Ident) (tokens : List TokenTree) (vars : Option VarMap)
    (python : String) (loc : Location) (python1 : String) (loc1 : Location)
    (h : add_whitespace python loc x.span = .ok (python1, loc1)) :
    add_tokens python loc (.identTok x :: tokens) vars =
      add_tokens (python1 ++ x.text)
        { loc1 with line := x.span.endPos.line, column := x.span.endPos.column }
        tokens vars := by
  have hs : TokenTree.span (.identTok x) = x.span := rfl
  simp only [add_tokens, hs, h]

lemma lit_step (s : String) (sp : Span) (tokens : List TokenTree) (vars : Option VarMap)
    (python : String) (loc : Location) (python1 : String) (loc1 : Location)
    (h : add_whitespace python loc sp = .ok (python1, loc1)) :
    add_tokens python loc (.litTok s sp :: tokens) vars =
      add_tokens (literal_emit python1 s)
        { loc1 with line := sp.endPos.line, column := sp.endPos.column } tokens vars := by
  have hs : TokenTree.span (.litTok s sp) = sp := rfl
  simp only [add_tokens, hs, h]

lemma capture_step (sp : Span) (name : Ident) (rest : List TokenTree) (m : VarMap)
    (python : String) (loc : Location) (python1 : String) (loc1 : Location)
    (h : add_whitespace python loc sp = .ok (python1, loc1)) :
    add_tokens python loc
        (.punctTok single_quote .joint sp :: .identTok name :: rest) (some m) =
      add_tokens (python1 ++ ("_RUST_" ++ name.text))
        { loc1 with column := loc1.column + (name.text.length + 1) } rest
        (some (entry_or_insert m ("_RUST_" ++ name.text) name)) := by
  have hs : TokenTree.span (.punctTok single_quote .joint sp) = sp := rfl
  simp only [add_tokens, hs, h, Option.isSome_some, Option.map_some]
  have h6 : "_RUST_".length = 6 := by decide
  have hl : "_RUST_".length + name.text.length - 6 + 1 = name.text.length + 1 := by
    rw [h6]; omega
  simp [String.length_append, hl]

lemma python_from_macro_of_add_tokens (input : List TokenTree) (vars : Option VarMap)
    (p : String) (l : Location) (vm : Option VarMap)
    (h : add_tokens "" { first_indent := Option.none, line := 1, column := 0 } input vars =
      .ok (p, l, vm)) :
    python_from_macro input vars = .ok (p, vm) := by
  simp only [ python_from_macro, h]

/-- C1: during reconstruction, when a token's span starts on a later line
than the cursor and its start column is smaller than the established
baseline indent `first_indent`, the whitespace step fails with an
`invalid indent` diagnostic anchored at that token's span, and
`add_tokens` propagates that failure instead of emitting output; when the
start column is at least `first_indent`, the emitted indentation for that
line is exactly `column - first_indent` spaces (after the newlines). -/
theorem add_whitespace_indentation_spec :
    (∀ python loc (span : Span) fi,
      loc.line < span.startPos.line → loc.first_indent = some fi →
      (span.startPos.column < fi →
        add_whitespace python loc span =
          .error (.diag (compile_error (some (span, span)) "invalid indent"))) ∧
      (fi ≤ span.startPos.column →
        add_whitespace python loc span =
          .ok (push_repeat (push_repeat python (span.startPos.line - loc.line) '\n')
                 (span.startPos.column - fi) ' ',
               { first_indent := some fi, line := span.startPos.line,
                 column := span.startPos.column })))
    ∧ (∀ python loc t rest vars e,
        add_whitespace python loc (TokenTree.span t) = .error e →
        add_tokens python loc (t :: rest) vars = .error e) := by
  constructor
  · intro python loc span fi hline hfi
    constructor
    · intro hcol
      simp only [add_whitespace, checked_sub, hfi]
      simp [hline, Nat.not_le.mpr hcol]
    · intro hcol
      simp only [add_whitespace, checked_sub, hfi]
      simp [hline, hcol]
  · intro python loc t rest vars e h
    simp only [add_tokens, h]

/-- Witness for C1: with baseline indent 4 established, a token starting at
line 2 column 2 aborts reconstruction with the anchored `invalid indent`
diagnostic, and a token starting at line 2 column 6 gets two spaces of
indentation. -/
theorem add_whitespace_indentation_spec_witness :
    add_whitespace "x" { first_indent := some 4, line := 1, column := 0 }
        { file := "f", startPos := ⟨2, 2⟩, endPos := ⟨2, 3⟩ } =
      .error (.diag (compile_error (some (⟨"f", ⟨2, 2⟩, ⟨2, 3⟩⟩, ⟨"f", ⟨2, 2⟩, ⟨2, 3⟩⟩))
        "invalid indent")) ∧
    add_tokens "x" { first_indent := some 4, line := 1, column := 0 }
        [.identTok ⟨"y", ⟨"f", ⟨2, 2⟩, ⟨2, 3⟩⟩⟩] Option.none =
      .error (.diag (compile_error (some (⟨"f", ⟨2, 2⟩, ⟨2, 3⟩⟩, ⟨"f", ⟨2, 2⟩, ⟨2, 3⟩⟩))
        "invalid indent")) ∧
    add_whitespace "x" { first_indent := some 4, line := 1, column := 0 }
        { file := "f", startPos := ⟨2, 6⟩, endPos := ⟨2, 7⟩ } =
      .ok ("x\n  ", { first_indent := some 4, line := 2, column := 6 }) := by
  refine ⟨?_, ?_, ?_⟩
  · exact (add_whitespace_indentation_spec.1 "x"
      { first_indent := some 4, line := 1, column := 0 }
      ⟨"f", ⟨2, 2⟩, ⟨2, 3⟩⟩ 4 (by decide) rfl).1 (by decide)
  · exact add_whitespace_indentation_spec.2 "x"
      { first_indent := some 4, line := 1, column := 0 }
      (.identTok ⟨"y", ⟨"f", ⟨2, 2⟩, ⟨2, 3⟩⟩⟩) [] Option.none _
      ((add_whitespace_indentation_spec.1 "x"
        { first_indent := some 4, line := 1, column := 0 }
        ⟨"f", ⟨2, 2⟩, ⟨2, 3⟩⟩ 4 (by decide) rfl).1 (by decide))
  · exact (add_whitespace_indentation_spec.1 "x"
      { first_indent := some 4, line := 1, column := 0 }
      ⟨"f", ⟨2, 6⟩, ⟨2, 7⟩⟩ 4 (by decide) rfl).2 (by decide)

/-- C2: `spans_for_line` returns `none` if and only if no leaf span and no
group open/close delimiter span (i.e. no span visited by `for_all_spans`,
where a group contributes its open span before its children and its close
span after them) starts on the queried line; otherwise it returns the pair
of the earliest and the latest matching span in document order; in
particular, for a line with tokens at columns [2, 5, 9] (the middle two
being the delimiters of a nested group) the first returned span starts at
column 2 and the second at column 9. -/
theorem spans_for_line_first_last_spec :
    (∀ input line, (spans_for_line input line = Option.none ↔
        ∀ s ∈ for_all_spans input, s.startPos.line ≠ line))
    ∧ (∀ input line f rest,
        (for_all_spans input).filter (span_matches line) = f :: rest →
        spans_for_line input line = some (f, last_from f rest))
    ∧ spans_for_line
        [ .identTok ⟨"a", ⟨"f", ⟨1, 2⟩, ⟨1, 3⟩⟩⟩,
          .group .parenthesis ⟨"f", ⟨1, 5⟩, ⟨1, 6⟩⟩ ⟨"f", ⟨1, 9⟩, ⟨1, 10⟩⟩ [] ] 1 =
        some (⟨"f", ⟨1, 2⟩, ⟨1, 3⟩⟩, ⟨"f", ⟨1, 9⟩, ⟨1, 10⟩⟩) := by
  refine ⟨fun input line => ?_, fun input line f rest h => ?_, ?_⟩
  · rw [spans_for_line_eq]
    constructor
    · intro h s hs hline
      rcases hfil : (for_all_spans input).filter (span_matches line) with _ | ⟨f, rest⟩
      · have : span_matches line s = false := by
          have := List.filter_eq_nil_iff.mp hfil s hs
          simpa using this
        simp [span_matches, hline] at this
      · rw [hfil] at h; simp at h
    · intro h
      have : (for_all_spans input).filter (span_matches line) = [] := by
        apply List.filter_eq_nil_iff.mpr
        intro s hs
        simp [span_matches, h s hs]
      rw [this]
  · rw [spans_for_line_eq, h]
  · simp [spans_for_line, for_all_spans, update_spans, TokenTree.span]

/-- Witness for C2 at concrete inputs: an empty-line query returns `none`,
and the [2, 5, 9] example returns the spans at columns 2 and 9. -/
theorem spans_for_line_first_last_spec_witness :
    spans_for_line [TokenTree.identTok ⟨"a", ⟨"f", ⟨1, 2⟩, ⟨1, 3⟩⟩⟩] 2 = Option.none ∧
    spans_for_line
        [ .identTok ⟨"a", ⟨"f", ⟨1, 2⟩, ⟨1, 3⟩⟩⟩,
          .group .parenthesis ⟨"f", ⟨1, 5⟩, ⟨1, 6⟩⟩ ⟨"f", ⟨1, 9⟩, ⟨1, 10⟩⟩ [] ] 1 =
        some (⟨"f", ⟨1, 2⟩, ⟨1, 3⟩⟩, ⟨"f", ⟨1, 9⟩, ⟨1, 10⟩⟩) :=
  ⟨(spans_for_line_first_last_spec.1 _ 2).mpr
      (by simp [for_all_spans, TokenTree.span]),
    spans_for_line_first_last_spec.2.2⟩

/-- C5: with capture processing enabled, a capture-marker punctuation
(lexically joined) followed immediately by an identifier `n` emits the
placeholder `_RUST_n` in place of the two tokens and registers
`("_RUST_n", n)` in the Capture Registry via `entry_or_insert`. -/
theorem capture_marker_placeholder_spec :
    ∀ python loc sp name rest m python1 loc1,
      add_whitespace python loc sp = .ok (python1, loc1) →
      add_tokens python loc
          (.punctTok single_quote .joint sp :: .identTok name :: rest) (some m) =
        add_tokens (python1 ++ ("_RUST_" ++ name.text))
          { loc1 with column := loc1.column + (name.text.length + 1) } rest
          (some (entry_or_insert m ("_RUST_" ++ name.text) name)) := by
  intro python loc sp name rest m python1 loc1 h
  have hs : TokenTree.span (.punctTok single_quote .joint sp) = sp := rfl
  simp only [add_tokens, hs, h, Option.isSome_some, Option.map_some]
  have h6 : "_RUST_".length = 6 := by decide
  have hl : "_RUST_".length + name.text.length - 6 + 1 = name.text.length + 1 := by
    rw [h6]; omega
  simp [String.length_append, hl]

/-- Witness for C5: the tokens `'x + y` reconstruct to `_RUST_x + y`
with the single registry entry `("_RUST_x", x)`. -/
theorem capture_marker_placeholder_spec_witness :
    add_tokens "" { first_indent := Option.none, line := 1, column := 0 }
        [ .punctTok single_quote .joint ⟨"f", ⟨1, 0⟩, ⟨1, 1⟩⟩,
          .identTok ⟨"x", ⟨"f", ⟨1, 1⟩, ⟨1, 2⟩⟩⟩ ] (some []) =
      .ok ("_RUST_x", { first_indent := Option.none, line := 1, column := 2 },
        some [("_RUST_x", ⟨"x", ⟨"f", ⟨1, 1⟩, ⟨1, 2⟩⟩⟩)]) := by
  rw [capture_marker_placeholder_spec "" { first_indent := Option.none, line := 1, column := 0 }
    ⟨"f", ⟨1, 0⟩, ⟨1, 1⟩⟩ ⟨"x", ⟨"f", ⟨1, 1⟩, ⟨1, 2⟩⟩⟩ [] [] "" _ rfl]
  simp only [add_tokens, entry_or_insert]
  decide

/-- C7: a joined `#` followed by another `#` is rewritten to the
two-character operator `//`; a joined `#` followed by any other
punctuation character is emitted unchanged, followed unchanged by that
character. -/
theorem hash_hash_rewrite_spec :
    ∀ python loc sp spc2 sp2 p rest vars python1 loc1,
      add_whitespace python loc sp = .ok (python1, loc1) →
      (add_tokens python loc
          (.punctTok '#' .joint sp :: .punctTok '#' spc2 sp2 :: rest) vars =
        add_tokens (python1 ++ "//") { loc1 with column := loc1.column + 2 } rest vars)
      ∧ (p ≠ '#' →
        add_tokens python loc
          (.punctTok '#' .joint sp :: .punctTok p spc2 sp2 :: rest) vars =
        add_tokens ((python1.push '#').push p)
          { loc1 with column := loc1.column + 2 } rest vars) := by
  intro python loc sp spc2 sp2 p rest vars python1 loc1 h
  have hs : TokenTree.span (.punctTok '#' .joint sp) = sp := rfl
  have hq : ¬('#' = single_quote) := by decide
  constructor
  · simp only [add_tokens, hs, h, hq]
    simp
  · intro hp
    simp only [add_tokens, hs, h, hq]
    simp [hp]

/-- Witness for C7: `# #` emits `//` and `# @` emits `#@`. -/
theorem hash_hash_rewrite_spec_witness :
    add_tokens "" { first_indent := Option.none, line := 1, column := 0 }
        [ .punctTok '#' .joint ⟨"f", ⟨1, 0⟩, ⟨1, 1⟩⟩,
          .punctTok '#' .alone ⟨"f", ⟨1, 1⟩, ⟨1, 2⟩⟩ ] Option.none =
      .ok ("//", { first_indent := Option.none, line := 1, column := 2 }, Option.none) ∧
    add_tokens "" { first_indent := Option.none, line := 1, column := 0 }
        [ .punctTok '#' .joint ⟨"f", ⟨1, 0⟩, ⟨1, 1⟩⟩,
          .punctTok '@' .alone ⟨"f", ⟨1, 1⟩, ⟨1, 2⟩⟩ ] Option.none =
      .ok ("#@", { first_indent := Option.none, line := 1, column := 2 }, Option.none) := by
  constructor
  · rw [(hash_hash_rewrite_spec "" { first_indent := Option.none, line := 1, column := 0 }
      ⟨"f", ⟨1, 0⟩, ⟨1, 1⟩⟩ .alone ⟨"f", ⟨1, 1⟩, ⟨1, 2⟩⟩ '@' [] Option.none "" _ rfl).1]
    simp only [add_tokens]
    decide
  · rw [(hash_hash_rewrite_spec "" { first_indent := Option.none, line := 1, column := 0 }
      ⟨"f", ⟨1, 0⟩, ⟨1, 1⟩⟩ .alone ⟨"f", ⟨1, 1⟩, ⟨1, 2⟩⟩ '@' [] Option.none "" _ rfl).2
      (by decide)]
    simp only [add_tokens]
    decide

/-- C8: emitting a literal drops exactly one previously emitted character,
the trailing space, precisely when the literal starts with a double quote,
the output so far ends with a space, and the character before that space
is ASCII alphabetic (so `f ".."` becomes `f".."`); in every other case the
previous output is kept whole, and `add_tokens` emits literals through
this rule. -/
theorem literal_space_drop_spec :
    (∀ python s c, s.data.head? = some '"' → python.data.getLast? = some ' ' →
      python.data.dropLast.getLast? = some c → c.isAlpha = true →
      literal_emit python s = { data := python.data.dropLast ++ s.data })
    ∧ (∀ python s,
        ¬(s.data.head? = some '"' ∧ python.data.getLast? = some ' ' ∧
          (match python.data.dropLast.getLast? with
            | some c => c.isAlpha
            | Option.none => false) = true) →
        literal_emit python s = python ++ s)
    ∧ literal_emit "f " "\"..\"" = "f\"..\""
    ∧ (∀ python loc s sp rest vars python1 loc1,
        add_whitespace python loc sp = .ok (python1, loc1) →
        add_tokens python loc (.litTok s sp :: rest) vars =
          add_tokens (literal_emit python1 s)
            { loc1 with line := sp.endPos.line, column := sp.endPos.column } rest vars) := by
  refine ⟨?_, ?_, by decide, ?_⟩
  · intro python s c h1 h2 h3 h4
    rw [literal_emit, if_pos]
    exact ⟨h1, h2, by rw [h3]; exact h4⟩
  · intro python s h
    rw [literal_emit, if_neg h]
  · intro python loc s sp rest vars python1 loc1 h
    have hs : TokenTree.span (.litTok s sp) = sp := rfl
    simp only [add_tokens, hs, h]

/-- Witness for C8: `f ".."` becomes `f".."`, while `+ ".."` keeps its
space, and a literal token after an identifier reconstructs accordingly. -/
theorem literal_space_drop_spec_witness :
    literal_emit "f " "\"..\"" = "f\"..\"" ∧
    literal_emit "+ " "\"..\"" = "+ \"..\"" ∧
    add_tokens "f " { first_indent := Option.none, line := 1, column := 2 }
        [.litTok "\"..\"" ⟨"f", ⟨1, 2⟩, ⟨1, 6⟩⟩] Option.none =
      .ok ("f\"..\"", { first_indent := Option.none, line := 1, column := 6 }, Option.none) := by
  refine ⟨literal_space_drop_spec.2.2.1,
    literal_space_drop_spec.2.1 "+ " "\"..\"" (by decide), ?_⟩
  rw [literal_space_drop_spec.2.2.2 "f " { first_indent := Option.none, line := 1, column := 2 }
    "\"..\"" ⟨"f", ⟨1, 2⟩, ⟨1, 6⟩⟩ [] Option.none "f " _ rfl]
  simp only [add_tokens]
  decide

/-- C6: after reconstruction the Capture Registry has strictly increasing
placeholder names in iteration (list) order — deterministic lexicographic
iteration — hence exactly one entry per distinct name (keys nodup), and
registration is first-wins: inserting an already-present name leaves the
registry unchanged, so later captures reuse the first entry. -/
theorem capture_registry_sorted_unique :
    (∀ input m out vm, keys_sorted m →
      python_from_macro input (some m) = .ok (out, vm) →
      ∀ m2, vm = some m2 → keys_sorted m2)
    ∧ (∀ (m : VarMap), keys_sorted m → (m.map Prod.fst).Nodup)
    ∧ (∀ (m : VarMap) k v v0, keys_sorted m → (k, v0) ∈ m →
        entry_or_insert m k v = m) := by
  refine ⟨?_, ?_, ?_⟩
  · intro input m out vm hm hrun m2 hvm
    subst hvm
    rcases hr : add_tokens "" { first_indent := Option.none, line := 1, column := 0 }
        input (some m) with e | t
    · rw [ python_from_macro, hr] at hrun
      cases hrun
    · obtain ⟨p2, l2, vm2⟩ := t
      rw [ python_from_macro, hr] at hrun
      cases hrun
      exact add_tokens_sorted _ _ input (some m) hm _ _ _ hr
  · intro m hm
    exact List.pairwise_map.mpr (hm.imp fun h => ne_of_lt h)
  · intro m k v v0 hm hmem
    exact entry_or_insert_existing k v m v0 hm hmem

/-- Witness for C6: reconstructing `'x 'x` (the same captured name twice)
leaves exactly the first entry, whose keys are sorted, and re-inserting
the present name is a no-op. -/
theorem capture_registry_sorted_unique_witness :
    keys_sorted [("_RUST_x", (⟨"x", ⟨"f", ⟨1, 1⟩, ⟨1, 2⟩⟩⟩ : Ident))] ∧
    entry_or_insert [("_RUST_x", ⟨"x", ⟨"f", ⟨1, 1⟩, ⟨1, 2⟩⟩⟩)] "_RUST_x"
        ⟨"x", ⟨"f", ⟨1, 4⟩, ⟨1, 5⟩⟩⟩ =
      [("_RUST_x", ⟨"x", ⟨"f", ⟨1, 1⟩, ⟨1, 2⟩⟩⟩)] := by
  have s1 : add_tokens "" { first_indent := Option.none, line := 1, column := 0 }
      [ .punctTok single_quote .joint ⟨"f", ⟨1, 0⟩, ⟨1, 1⟩⟩,
        .identTok ⟨"x", ⟨"f", ⟨1, 1⟩, ⟨1, 2⟩⟩⟩,
        .punctTok single_quote .joint ⟨"f", ⟨1, 3⟩, ⟨1, 4⟩⟩,
        .identTok ⟨"x", ⟨"f", ⟨1, 4⟩, ⟨1, 5⟩⟩⟩ ] (some []) =
      add_tokens "_RUST_x" { first_indent := Option.none, line := 1, column := 2 }
        [ .punctTok single_quote .joint ⟨"f", ⟨1, 3⟩, ⟨1, 4⟩⟩,
          .identTok ⟨"x", ⟨"f", ⟨1, 4⟩, ⟨1, 5⟩⟩⟩ ]
        (some [("_RUST_x", ⟨"x", ⟨"f", ⟨1, 1⟩, ⟨1, 2⟩⟩⟩)]) := by
    rw [capture_step _ _ _ _ _ _ ""
      { first_indent := Option.none, line := 1, column := 0 } (by decide)]
    congr
  have s2 : add_tokens "_RUST_x" { first_indent := Option.none, line := 1, column := 2 }
      [ .punctTok single_quote .joint ⟨"f", ⟨1, 3⟩, ⟨1, 4⟩⟩,
        .identTok ⟨"x", ⟨"f", ⟨1, 4⟩, ⟨1, 5⟩⟩⟩ ]
      (some [("_RUST_x", ⟨"x", ⟨"f", ⟨1, 1⟩, ⟨1, 2⟩⟩⟩)]) =
      add_tokens "_RUST_x _RUST_x" { first_indent := Option.none, line := 1, column := 5 }
        [] (some [("_RUST_x", ⟨"x", ⟨"f", ⟨1, 1⟩, ⟨1, 2⟩⟩⟩)]) := by
    rw [capture_step _ _ _ _ _ _ "_RUST_x "
      { first_indent := Option.none, line := 1, column := 3 } (by decide)]
    rw [entry_or_insert_existing ("_RUST_" ++ "x") ⟨"x", ⟨"f", ⟨1, 4⟩, ⟨1, 5⟩⟩⟩
      [("_RUST_x", ⟨"x", ⟨"f", ⟨1, 1⟩, ⟨1, 2⟩⟩⟩)] ⟨"x", ⟨"f", ⟨1, 1⟩, ⟨1, 2⟩⟩⟩
      (by simp [keys_sorted]) (by decide)]
    congr
  have hchain := (s1.trans s2).trans
    (add_tokens_nil "_RUST_x _RUST_x" { first_indent := Option.none, line := 1, column := 5 }
      (some [("_RUST_x", ⟨"x", ⟨"f", ⟨1, 1⟩, ⟨1, 2⟩⟩⟩)]))
  have hrun : python_from_macro
      [ .punctTok single_quote .joint ⟨"f", ⟨1, 0⟩, ⟨1, 1⟩⟩,
        .identTok ⟨"x", ⟨"f", ⟨1, 1⟩, ⟨1, 2⟩⟩⟩,
        .punctTok single_quote .joint ⟨"f", ⟨1, 3⟩, ⟨1, 4⟩⟩,
        .identTok ⟨"x", ⟨"f", ⟨1, 4⟩, ⟨1, 5⟩⟩⟩ ] (some []) =
      .ok ("_RUST_x _RUST_x", some [("_RUST_x", ⟨"x", ⟨"f", ⟨1, 1⟩, ⟨1, 2⟩⟩⟩)]) :=
    python_from_macro_of_add_tokens _ _ _ _ _ hchain
  constructor
  · exact capture_registry_sorted_unique.1 _ [] _ _ (by simp [keys_sorted]) hrun _ rfl
  · exact capture_registry_sorted_unique.2.2 _ "_RUST_x" _ ⟨"x", ⟨"f", ⟨1, 1⟩, ⟨1, 2⟩⟩⟩
      (by simp [keys_sorted]) (by simp)

/-- C3, counterexample: a runtime error whose traceback has a second frame
in the host file, with a span available on that frame's line, still
produces an unanchored diagnostic, because the code inspects only the
head frame — refuting the claim that a match by *some* frame suffices. -/
theorem python_error_some_frame_counterexample :
    (python_error_to_compile_error
        { valueIsNone := false, isSyntaxError := false, synInfo := Option.none,
          traceback := some (⟨"other.py", 7⟩, [⟨"src/main.rs", 1⟩]),
          strValue := some "boom", typeName := "ZeroDivisionError" }
        [.identTok ⟨"x", ⟨"src/main.rs", ⟨1, 0⟩, ⟨1, 1⟩⟩⟩]
        "src/main.rs").spans = Option.none ∧
    (⟨"src/main.rs", 1⟩ : TracebackFrame) ∈
      all_frames (⟨"other.py", 7⟩, [⟨"src/main.rs", 1⟩]) ∧
    spans_for_line [.identTok ⟨"x", ⟨"src/main.rs", ⟨1, 0⟩, ⟨1, 1⟩⟩⟩] 1 ≠ Option.none := by
  refine ⟨?_, by simp [all_frames], ?_⟩
  · simp [python_error_to_compile_error, get_traceback_info, compile_error]
  · simp [spans_for_line, for_all_spans, update_spans, TokenTree.span]

/-- C3, amended: for a runtime error (value present, not a syntax error,
printable), the diagnostic is anchored at a span pair if and only if the
*first* (head) frame of the traceback has its file equal — by exact string
equality — to the host file the source was submitted under and a span
exists on that frame's line; in all other cases it is unanchored. -/
theorem python_error_anchoring_first_frame :
    ∀ e tokens host msg, e.valueIsNone = false → e.isSyntaxError = false →
      e.strValue = some msg →
      (python_error_to_compile_error e tokens host).spans =
        (match e.traceback with
         | some tb =>
            if (get_traceback_info tb).1 = host then
              spans_for_line tokens (get_traceback_info tb).2
            else Option.none
         | Option.none => Option.none) := by
  intro e tokens host msg h1 h2 h3
  rcases e with ⟨v, syn, sinfo, tb, sv, tn⟩
  simp only at h1 h2 h3
  subst h1 h2 h3
  rcases tb with _ | ⟨frame, frames⟩
  · simp [python_error_to_compile_error, compile_error]
  · by_cases hf : frame.file = host
    · rcases hsp : spans_for_line tokens frame.line with _ | sp
      · simp [python_error_to_compile_error, get_traceback_info, compile_error, hf, hsp]
      · simp [python_error_to_compile_error, get_traceback_info, compile_error, hf, hsp]
    · simp [python_error_to_compile_error, get_traceback_info, compile_error, hf]

/-- Witness for C3 (amended) at concrete inputs: anchored when the head
frame matches the host file and a span exists; unanchored when the head
frame is in another file. -/
theorem python_error_anchoring_first_frame_witness :
    (python_error_to_compile_error
        { valueIsNone := false, isSyntaxError := false, synInfo := Option.none,
          traceback := some (⟨"src/main.rs", 1⟩, []),
          strValue := some "boom", typeName := "ZeroDivisionError" }
        [.identTok ⟨"x", ⟨"src/main.rs", ⟨1, 0⟩, ⟨1, 1⟩⟩⟩]
        "src/main.rs").spans =
      some (⟨"src/main.rs", ⟨1, 0⟩, ⟨1, 1⟩⟩, ⟨"src/main.rs", ⟨1, 0⟩, ⟨1, 1⟩⟩) ∧
    (python_error_to_compile_error
        { valueIsNone := false, isSyntaxError := false, synInfo := Option.none,
          traceback := some (⟨"other.py", 1⟩, []),
          strValue := some "boom", typeName := "ZeroDivisionError" }
        [.identTok ⟨"x", ⟨"src/main.rs", ⟨1, 0⟩, ⟨1, 1⟩⟩⟩]
        "src/main.rs").spans = Option.none := by
  constructor
  · rw [python_error_anchoring_first_frame _ _ _ "boom" rfl rfl rfl]
    simp [get_traceback_info, spans_for_line, for_all_spans, update_spans, TokenTree.span]
  · rw [python_error_anchoring_first_frame _ _ _ "boom" rfl rfl rfl]
    simp [get_traceback_info]

/-- C9: reconstruction is deterministic — two runs of `python_from_macro`
on the same token tree and initial registry produce the same result
(byte-identical output string and identical registry, the registry being
a sorted list whose iteration order is its list order). -/
theorem python_from_macro_deterministic :
    ∀ input vars out1 out2,
      python_from_macro input vars = out1 → python_from_macro input vars = out2 →
      out1 = out2 := by
  intro input vars out1 out2 h1 h2
  rw [← h1, ← h2]

/-- Witness for C9 on a concrete capture example. -/
theorem python_from_macro_deterministic_witness :
    (Except.ok ("_RUST_x", some [("_RUST_x", (⟨"x", ⟨"f", ⟨1, 1⟩, ⟨1, 2⟩⟩⟩ : Ident))]) :
        Except EmitError (String × Option VarMap)) =
      Except.ok ("_RUST_x", some [("_RUST_x", ⟨"x", ⟨"f", ⟨1, 1⟩, ⟨1, 2⟩⟩⟩)]) := by
  have s1 : add_tokens "" { first_indent := Option.none, line := 1, column := 0 }
      [ .punctTok single_quote .joint ⟨"f", ⟨1, 0⟩, ⟨1, 1⟩⟩,
        .identTok ⟨"x", ⟨"f", ⟨1, 1⟩, ⟨1, 2⟩⟩⟩ ] (some []) =
      add_tokens "_RUST_x" { first_indent := Option.none, line := 1, column := 2 }
        [] (some [("_RUST_x", ⟨"x", ⟨"f", ⟨1, 1⟩, ⟨1, 2⟩⟩⟩)]) := by
    rw [capture_step _ _ _ _ _ _ ""
      { first_indent := Option.none, line := 1, column := 0 } (by decide)]
    congr
  have hchain := s1.trans
    (add_tokens_nil "_RUST_x" { first_indent := Option.none, line := 1, column := 2 }
      (some [("_RUST_x", ⟨"x", ⟨"f", ⟨1, 1⟩, ⟨1, 2⟩⟩⟩)]))
  have h : python_from_macro
      [ .punctTok single_quote .joint ⟨"f", ⟨1, 0⟩, ⟨1, 1⟩⟩,
        .identTok ⟨"x", ⟨"f", ⟨1, 1⟩, ⟨1, 2⟩⟩⟩ ] (some []) =
      .ok ("_RUST_x", some [("_RUST_x", ⟨"x", ⟨"f", ⟨1, 1⟩, ⟨1, 2⟩⟩⟩)]) :=
    python_from_macro_of_add_tokens _ _ _ _ _ hchain
  exact python_from_macro_deterministic _ _ _ _ h h

/-- C10: `spans_for_line` matches spans only by their start line: whenever
no visited span starts on the queried line the result is `none`, even when
a multi-line token covers that line (a triple-quoted literal spanning
lines 1-3 yields `none` for its interior line 2 and final line 3, and its
span only for line 1), and a runtime error mapped to such a line produces
an unanchored diagnostic. -/
theorem spans_for_line_start_line_only :
    (∀ input line, (∀ s ∈ for_all_spans input, s.startPos.line ≠ line) →
      spans_for_line input line = Option.none)
    ∧ (spans_for_line [.litTok "\"\"\"ab\"\"\"" ⟨"f", ⟨1, 0⟩, ⟨3, 3⟩⟩] 2 = Option.none ∧
       spans_for_line [.litTok "\"\"\"ab\"\"\"" ⟨"f", ⟨1, 0⟩, ⟨3, 3⟩⟩] 3 = Option.none ∧
       spans_for_line [.litTok "\"\"\"ab\"\"\"" ⟨"f", ⟨1, 0⟩, ⟨3, 3⟩⟩] 1 =
         some (⟨"f", ⟨1, 0⟩, ⟨3, 3⟩⟩, ⟨"f", ⟨1, 0⟩, ⟨3, 3⟩⟩))
    ∧ (∀ e tokens host msg tb, e.valueIsNone = false → e.isSyntaxError = false →
        e.strValue = some msg → e.traceback = some tb →
        spans_for_line tokens (get_traceback_info tb).2 = Option.none →
        (python_error_to_compile_error e tokens host).spans = Option.none) := by
  refine ⟨?_, ⟨?_, ?_, ?_⟩, ?_⟩
  · intro input line h
    rw [spans_for_line_eq]
    have hfil : (for_all_spans input).filter (span_matches line) = [] :=
      List.filter_eq_nil_iff.mpr (fun s hs => by simp [span_matches, h s hs])
    rw [hfil]
  · simp [spans_for_line, for_all_spans, update_spans, TokenTree.span]
  · simp [spans_for_line, for_all_spans, update_spans, TokenTree.span]
  · simp [spans_for_line, for_all_spans, update_spans, TokenTree.span]
  · intro e tokens host msg tb h1 h2 h3 h4 h5
    rcases e with ⟨v, syn, sinfo, tbf, sv, tn⟩
    simp only at h1 h2 h3 h4
    subst h1 h2 h3 h4
    by_cases hf : (get_traceback_info tb).1 = host
    · simp [python_error_to_compile_error, compile_error, hf, h5]
    · simp [python_error_to_compile_error, compile_error, hf]

/-- Witness for C10: querying the interior line of the multi-line literal
through the general lemma gives `none`, and a concrete runtime error on
that line yields an unanchored diagnostic. -/
theorem spans_for_line_start_line_only_witness :
    spans_for_line [.litTok "\"\"\"ab\"\"\"" ⟨"f", ⟨1, 0⟩, ⟨3, 3⟩⟩] 2 = Option.none ∧
    (python_error_to_compile_error
        { valueIsNone := false, isSyntaxError := false, synInfo := Option.none,
          traceback := some (⟨"f", 2⟩, []),
          strValue := some "boom", typeName := "ZeroDivisionError" }
        [.litTok "\"\"\"ab\"\"\"" ⟨"f", ⟨1, 0⟩, ⟨3, 3⟩⟩] "f").spans = Option.none := by
  constructor
  · exact spans_for_line_start_line_only.1 _ 2
      (by simp [for_all_spans, TokenTree.span])
  · exact spans_for_line_start_line_only.2.2 _ _ "f" "boom" (⟨"f", 2⟩, []) rfl rfl rfl rfl
      (spans_for_line_start_line_only.1 _ 2 (by simp [for_all_spans, TokenTree.span]))

/-- C4, counterexample: the uniform one-line single-space-separated tokens
`f "x"` (identifier ending in an ASCII letter at columns 0-1, quoted
literal at columns 2-5, one column of gap) reconstruct to `f"x"`, not to
the single-space concatenation `f "x"` computed by `concat_texts`: the
prefixed-string space-drop removes the separator. -/
theorem uniform_roundtrip_counterexample :
    python_from_macro
        [ .identTok ⟨"f", ⟨"f", ⟨1, 0⟩, ⟨1, 1⟩⟩⟩,
          .litTok "\"x\"" ⟨"f", ⟨1, 2⟩, ⟨1, 5⟩⟩ ] Option.none =
      .ok ("f\"x\"", Option.none) ∧
    concat_texts
        [ .identTok ⟨"f", ⟨"f", ⟨1, 0⟩, ⟨1, 1⟩⟩⟩,
          .litTok "\"x\"" ⟨"f", ⟨1, 2⟩, ⟨1, 5⟩⟩ ] = "f \"x\"" ∧
    ("f\"x\"" : String) ≠ "f \"x\"" := by
  refine ⟨?_, ?_, by decide⟩
  · have s1 : add_tokens "" { first_indent := Option.none, line := 1, column := 0 }
        [ .identTok ⟨"f", ⟨"f", ⟨1, 0⟩, ⟨1, 1⟩⟩⟩,
          .litTok "\"x\"" ⟨"f", ⟨1, 2⟩, ⟨1, 5⟩⟩ ] Option.none =
        add_tokens "f" { first_indent := Option.none, line := 1, column := 1 }
          [.litTok "\"x\"" ⟨"f", ⟨1, 2⟩, ⟨1, 5⟩⟩] Option.none := by
      rw [ident_step _ _ _ ""
        { first_indent := Option.none, line := 1, column := 0 } ""
        { first_indent := Option.none, line := 1, column := 0 } (by decide)]
      congr
    have s2 : add_tokens "f" { first_indent := Option.none, line := 1, column := 1 }
        [.litTok "\"x\"" ⟨"f", ⟨1, 2⟩, ⟨1, 5⟩⟩] Option.none =
        add_tokens "f\"x\"" { first_indent := Option.none, line := 1, column := 5 }
          [] Option.none := by
      rw [lit_step _ _ _ _ "f"
        { first_indent := Option.none, line := 1, column := 1 } "f "
        { first_indent := Option.none, line := 1, column := 2 } (by decide)]
      congr
    have hchain := (s1.trans s2).trans
      (add_tokens_nil "f\"x\"" { first_indent := Option.none, line := 1, column := 5 }
        Option.none)
    exact python_from_macro_of_add_tokens _ _ _ _ _ hchain
  · simp only [concat_texts, sep_concat, leaf_text]
    decide

/-- C4, amended: for token trees of uniform one-line single-space-separated
leaf tokens starting at column 0, reconstruction yields exactly the token
texts joined by single spaces — provided no quoted literal immediately
follows a token whose text ends in an ASCII-alphabetic character (the
case rewritten by the prefixed-string rule, as the counterexample shows). -/
theorem uniform_roundtrip_amended :
    ∀ ts vars, uniform_from_start ts →
      python_from_macro ts vars = .ok (concat_texts ts, vars) := by
  intro ts vars hu
  match ts with
  | [] => simp [ python_from_macro, add_tokens, concat_texts]
  | .punctTok ch sp span :: rest =>
    obtain ⟨hsp, hstart, hrest⟩ := hu
    subst hsp
    have hws : add_whitespace "" { first_indent := Option.none, line := 1, column := 0 } span =
        .ok ("", { first_indent := Option.none, line := 1, column := 0 }) := by
      simp [add_whitespace, hstart]
    simp only [ python_from_macro, add_tokens, TokenTree.span, hws]
    rw [if_neg (by simp), if_neg (by simp)]
    rw [show (0 + 1 : Nat) = 1 from rfl,
      add_tokens_uniform_after rest (some ch) 1 ("".push ch) Option.none vars hrest
        (push_data_getLast _ _)]
    simp [concat_texts, leaf_text, String.singleton]
  | .identTok x :: rest =>
    obtain ⟨htext, hstart, hend, hrest⟩ := hu
    have hws : add_whitespace "" { first_indent := Option.none, line := 1, column := 0 }
        x.span =
        .ok ("", { first_indent := Option.none, line := 1, column := 0 }) := by
      simp [add_whitespace, hstart]
    simp only [ python_from_macro, add_tokens, TokenTree.span, hws, hend,
      String.empty_append]
    rw [add_tokens_uniform_after rest x.text.data.getLast? x.text.length x.text
      Option.none vars hrest rfl]
    simp [concat_texts, leaf_text]
  | .litTok s span :: rest =>
    obtain ⟨htext, hstart, hend, hrest⟩ := hu
    have hws : add_whitespace "" { first_indent := Option.none, line := 1, column := 0 }
        span =
        .ok ("", { first_indent := Option.none, line := 1, column := 0 }) := by
      simp [add_whitespace, hstart]
    have hle : literal_emit "" s = s := by
      rw [literal_emit, if_neg, String.empty_append]
      intro hcond
      exact absurd hcond.2.1 (by decide)
    simp only [ python_from_macro, add_tokens, TokenTree.span, hws, hend, hle]
    rw [add_tokens_uniform_after rest s.data.getLast? s.length s
      Option.none vars hrest rfl]
    simp [concat_texts, leaf_text]
  | .group d os cs stream :: rest =>
    simp [uniform_from_start] at hu

/-- Witness for C4 (amended): the uniform tokens `print + "a"` reconstruct
to exactly their single-space concatenation. -/
theorem uniform_roundtrip_amended_witness :
    python_from_macro
        [ .identTok ⟨"print", ⟨"f", ⟨1, 0⟩, ⟨1, 5⟩⟩⟩,
          .punctTok '+' .alone ⟨"f", ⟨1, 6⟩, ⟨1, 7⟩⟩,
          .litTok "\"a\"" ⟨"f", ⟨1, 8⟩, ⟨1, 11⟩⟩ ] Option.none =
      .ok ("print + \"a\"", Option.none) := by
  rw [uniform_roundtrip_amended _ Option.none ?_]
  · decide
  · refine ⟨by decide, by decide, by decide, by decide, by decide, by decide, ?_,
      by decide, by decide, trivial⟩
    intro hcond
    rcases hcond with ⟨hh, ch0, hch, hal⟩
    cases hch
    exact absurd hal (by decide)

end InlinePython
